import Mathlib

/-!
Verification of the Bark-Proxy webhook relay (`src/index.ts`): a shallow
embedding of the path resolver (`getValueByPath`), the expression evaluator
(`evaluateExpression`), the template renderer (`replaceTemplateVars`), the
rule mapper (the `barkParams` construction inside `sendToBark`) and the
rule-creation route (`app.post` on the rules path), together with theorems
about the behaviour the specification ascribes to them.

Modelling choices for the JavaScript semantics the code relies on:
JavaScript numbers are modelled as exact rationals extended with NaN and the
two infinities; object identity (strict or loose equality applied to two
objects) is approximated by structural equality, and no theorem below
depends on that case; property access on `null`/`undefined`, which throws in
JavaScript, is modelled as yielding `undefined` at the one call site where
it can occur (the rule-creation route), where the thrown error is caught by
the surrounding handler and produces exactly the same observable outcome (a
client error and no store mutation).
-/

namespace BarkProxy

/-- Exact rational numbers as unnormalized numerator/denominator pairs.
Every operation below keeps the denominator positive; equality and order
compare by cross-multiplication, so normalization is never needed. This
representation (rather than the library rationals) keeps every arithmetic
step reducible by the kernel. -/
structure Frac where
  num : Int
  den : Nat
deriving DecidableEq

instance (n : Nat) : OfNat Frac n := ⟨⟨(n : Int), 1⟩⟩

/-- Sum of two fractions. -/
def fracAdd (a b : Frac) : Frac := ⟨a.num * b.den + b.num * a.den, a.den * b.den⟩

/-- Product of two fractions. -/
def fracMul (a b : Frac) : Frac := ⟨a.num * b.num, a.den * b.den⟩

/-- Negation of a fraction. -/
def fracNeg (a : Frac) : Frac := ⟨-a.num, a.den⟩

/-- Value equality of fractions by cross-multiplication. -/
def fracEq (a b : Frac) : Bool := a.num * (b.den : Int) == b.num * (a.den : Int)

/-- Strict order on fractions by cross-multiplication (denominators are kept
positive). -/
def fracLt (a b : Frac) : Bool := decide (a.num * (b.den : Int) < b.num * (a.den : Int))

/-- The integer power of ten as a fraction. -/
def tenPow : Int → Frac
  | .ofNat n => ⟨(10 : Int) ^ n, 1⟩
  | .negSucc n => ⟨1, 10 ^ (n + 1)⟩

/-- JavaScript numbers: finite values as exact rationals, plus NaN and the
two infinities. -/
inductive JNum where
  | fin (q : Frac)
  | nan
  | inf
  | ninf
deriving DecidableEq

/-- Equality of JavaScript numbers: NaN is equal to nothing, finite values
compare by value. -/
def jNumEq : JNum → JNum → Bool
  | .fin a, .fin b => fracEq a b
  | .inf, .inf => true
  | .ninf, .ninf => true
  | _, _ => false

/-- JavaScript values reachable in the program: JSON data (undefined, null,
booleans, numbers, strings, arrays, objects) plus `builtin`, a marker for
the function values inherited from the object prototype (values reachable
only through the prototype chain, never part of parsed JSON). -/
inductive JsVal where
  | undefined
  | null
  | bool (b : Bool)
  | num (n : JNum)
  | str (s : String)
  | arr (elems : List JsVal)
  | obj (fields : List (String × JsVal))
  | builtin (name : String)

mutual

/-- Structural equality of values, used to approximate JavaScript object
identity in the two equality operators (no theorem depends on that case). -/
def jsValBeq : JsVal → JsVal → Bool
  | .undefined, .undefined => true
  | .null, .null => true
  | .bool a, .bool b => a == b
  | .num a, .num b => jNumEq a b
  | .str a, .str b => a == b
  | .arr a, .arr b => jsValListBeq a b
  | .obj a, .obj b => jsValFieldsBeq a b
  | .builtin a, .builtin b => a == b
  | _, _ => false

/-- Structural equality of element lists. -/
def jsValListBeq : List JsVal → List JsVal → Bool
  | [], [] => true
  | a :: as, b :: bs => jsValBeq a b && jsValListBeq as bs
  | _, _ => false

/-- Structural equality of field lists. -/
def jsValFieldsBeq : List (String × JsVal) → List (String × JsVal) → Bool
  | [], [] => true
  | (ka, va) :: as, (kb, vb) :: bs => ka == kb && jsValBeq va vb && jsValFieldsBeq as bs
  | _, _ => false

end

/-- Whitespace for the JavaScript regex whitespace class and string trim. -/
def jsWs (c : Char) : Bool :=
  c = ' ' || c = '\t' || c = '\n' || c = '\r' || c = Char.ofNat 11 ||
  c = Char.ofNat 12 || c = Char.ofNat 0xa0 || c = Char.ofNat 0x2028 ||
  c = Char.ofNat 0x2029 || c = Char.ofNat 0xfeff

/-- Characters matched by the dot in a JavaScript regex (no `s` flag): every
character except the four line terminators. -/
def jsDot (c : Char) : Bool :=
  !(c = '\n' || c = '\r' || c = Char.ofNat 0x2028 || c = Char.ofNat 0x2029)

/-- JavaScript string trim: strip whitespace from both ends. -/
def jsTrim (s : String) : String :=
  (((s.toList.dropWhile jsWs).reverse.dropWhile jsWs).reverse).asString

/-- JavaScript truthiness. -/
def jsTruthy : JsVal → Bool
  | .undefined => false
  | .null => false
  | .bool b => b
  | .num (.fin q) => q.num != 0
  | .num .nan => false
  | .num _ => true
  | .str s => s != ""
  | .arr _ => true
  | .obj _ => true
  | .builtin _ => true

/-- Value of a list of decimal digit characters. -/
def digitsToNat (l : List Char) : Nat :=
  l.foldl (fun a c => a * 10 + (c.toNat - 48)) 0

/-- Decimal digits of the fractional part `r / d`, up to `k` digits.
JavaScript prints the shortest round-trip form of a double; every number
stringified by the claims is an integer, where the two agree. -/
def fracDigits : Nat → Nat → Nat → List Char
  | 0, _, _ => []
  | _ + 1, 0, _ => []
  | k + 1, r, d =>
    let r10 := r * 10
    Char.ofNat (48 + r10 / d) :: fracDigits k (r10 % d) d

/-- JavaScript number-to-string conversion. -/
def jsNumToString : JNum → String
  | .nan => "NaN"
  | .inf => "Infinity"
  | .ninf => "-Infinity"
  | .fin q =>
    if q.num % (q.den : Int) = 0 then toString (q.num / (q.den : Int))
    else
      let sign := if q.num < 0 then "-" else ""
      let n := q.num.natAbs
      let d := q.den
      let digs := ((fracDigits 20 (n % d) d).reverse.dropWhile (fun c => c = '0')).reverse
      sign ++ toString (n / d) ++ "." ++ digs.asString

mutual

/-- JavaScript string conversion of a value: primitives print their literal
text, arrays join their elements with commas (null and undefined joining as
empty text), plain objects print as the object tag. -/
def jsToString : JsVal → String
  | .undefined => "undefined"
  | .null => "null"
  | .bool b => if b then "true" else "false"
  | .num n => jsNumToString n
  | .str s => s
  | .arr es => String.intercalate "," (jsToStringElems es)
  | .obj _ => "[object Object]"
  | .builtin name => "function " ++ name

/-- String conversion of array elements for the array join. -/
def jsToStringElems : List JsVal → List String
  | [] => []
  | .undefined :: es => "" :: jsToStringElems es
  | .null :: es => "" :: jsToStringElems es
  | e :: es => jsToString e :: jsToStringElems es

end

/-- Value of a digit character in the given radix, if it is one. -/
def digitVal (radix : Nat) (c : Char) : Option Nat :=
  let v :=
    if '0' ≤ c ∧ c ≤ '9' then some (c.toNat - 48)
    else if 'a' ≤ c ∧ c ≤ 'z' then some (c.toNat - 87)
    else if 'A' ≤ c ∧ c ≤ 'Z' then some (c.toNat - 55)
    else none
  match v with
  | some n => if n < radix then some n else none
  | none => none

/-- Value of a non-empty digit list in the given radix, if all digits fit. -/
def parseRadix (radix : Nat) (l : List Char) : Option Nat :=
  if l = [] then none
  else l.foldl (fun acc c => acc.bind fun a => (digitVal radix c).map fun v => a * radix + v)
    (some 0)

/-- Exponent part of a decimal literal: empty means exponent zero; otherwise
an exponent marker, an optional sign and at least one digit. -/
def parseExpPart : List Char → Option Int
  | [] => some 0
  | e :: rest =>
    if e = 'e' ∨ e = 'E' then
      match rest with
      | '+' :: r2 => (parseRadix 10 r2).map Int.ofNat
      | '-' :: r2 => (parseRadix 10 r2).map fun n => -(Int.ofNat n)
      | r2 => (parseRadix 10 r2).map Int.ofNat
    else none

/-- Unsigned decimal literal body: integer digits, an optional point with
fraction digits (at least one digit in total), and an optional exponent. -/
def parseDecBody (l : List Char) : Option Frac :=
  let a := l.takeWhile Char.isDigit
  let r1 := l.dropWhile Char.isDigit
  match r1 with
  | '.' :: r2 =>
    let b := r2.takeWhile Char.isDigit
    let r3 := r2.dropWhile Char.isDigit
    if a = [] ∧ b = [] then none
    else (parseExpPart r3).map fun e =>
      fracMul (fracAdd ⟨(digitsToNat a : Int), 1⟩ ⟨(digitsToNat b : Int), 10 ^ b.length⟩)
        (tenPow e)
  | _ =>
    if a = [] then none
    else (parseExpPart r1).map fun e => fracMul ⟨(digitsToNat a : Int), 1⟩ (tenPow e)

/-- JavaScript string-to-number conversion: trimmed empty text is zero, a
radix prefix introduces an unsigned non-decimal integer, otherwise an
optional sign precedes an infinity keyword or a decimal literal; anything
else is NaN. -/
def strToNum (s : String) : JNum :=
  let l := ((s.toList.dropWhile jsWs).reverse.dropWhile jsWs).reverse
  match l with
  | [] => .fin 0
  | '0' :: 'x' :: r => match parseRadix 16 r with | some n => .fin ⟨(n : Int), 1⟩ | none => .nan
  | '0' :: 'X' :: r => match parseRadix 16 r with | some n => .fin ⟨(n : Int), 1⟩ | none => .nan
  | '0' :: 'b' :: r => match parseRadix 2 r with | some n => .fin ⟨(n : Int), 1⟩ | none => .nan
  | '0' :: 'B' :: r => match parseRadix 2 r with | some n => .fin ⟨(n : Int), 1⟩ | none => .nan
  | '0' :: 'o' :: r => match parseRadix 8 r with | some n => .fin ⟨(n : Int), 1⟩ | none => .nan
  | '0' :: 'O' :: r => match parseRadix 8 r with | some n => .fin ⟨(n : Int), 1⟩ | none => .nan
  | _ =>
    let (neg, body) :=
      match l with
      | '+' :: r => (false, r)
      | '-' :: r => (true, r)
      | r => (false, r)
    if body.asString = "Infinity" then (if neg then .ninf else .inf)
    else match parseDecBody body with
      | some q => .fin (if neg then fracNeg q else q)
      | none => .nan

/-- JavaScript number conversion: arrays and objects go through their string
form (the default primitive conversion of parsed JSON values). -/
def jsToNumber : JsVal → JNum
  | .undefined => .nan
  | .null => .fin 0
  | .bool b => .fin (if b then 1 else 0)
  | .num n => n
  | .str s => strToNum s
  | v => strToNum (jsToString v)

/-- Code-unit lexicographic string order used by the relational operators. -/
def charListLt : List Char → List Char → Bool
  | [], [] => false
  | [], _ :: _ => true
  | _ :: _, [] => false
  | a :: as, b :: bs => if a < b then true else if b < a then false else charListLt as bs

/-- Primitive conversion with the default hint: arrays, objects and function
values become their string form, primitives stay themselves. -/
def toPrimNum : JsVal → JsVal
  | .arr es => .str (jsToString (.arr es))
  | .obj fs => .str (jsToString (.obj fs))
  | .builtin n => .str (jsToString (.builtin n))
  | v => v

/-- JavaScript abstract relational comparison of two values: both sides are
converted to primitives; two strings compare lexicographically, otherwise
both convert to numbers, and the answer is undefined when either is NaN. -/
def jsLessThan (a b : JsVal) : Option Bool :=
  match toPrimNum a, toPrimNum b with
  | .str s1, .str s2 => some (charListLt s1.toList s2.toList)
  | pa, pb =>
    match jsToNumber pa, jsToNumber pb with
    | .nan, _ => none
    | _, .nan => none
    | .inf, _ => some false
    | .ninf, .ninf => some false
    | .ninf, _ => some true
    | .fin _, .inf => some true
    | .fin _, .ninf => some false
    | .fin q1, .fin q2 => some (fracLt q1 q2)

/-- Strict equality: same type and same value, with NaN unequal to itself;
object identity approximated structurally. -/
def jsStrictEq : JsVal → JsVal → Bool
  | .undefined, .undefined => true
  | .null, .null => true
  | .bool a, .bool b => a == b
  | .num a, .num b => jNumEq a b
  | .str a, .str b => a == b
  | .arr a, .arr b => jsValListBeq a b
  | .obj a, .obj b => jsValFieldsBeq a b
  | .builtin a, .builtin b => a == b
  | _, _ => false

/-- Lower a boolean operand of loose equality to its number form; two
booleans lowered this way compare exactly as they would by type (the
number forms of true and false are distinct). -/
def lowerBool : JsVal → JsVal
  | .bool b => .num (.fin (if b then 1 else 0))
  | v => v

/-- Loose equality on primitives after boolean lowering: undefined and null
are equal to each other and themselves, numbers and strings meet through
number conversion. -/
def loosePrimEq (x y : JsVal) : Bool :=
  match lowerBool x, lowerBool y with
  | .undefined, .undefined => true
  | .undefined, .null => true
  | .null, .undefined => true
  | .null, .null => true
  | .num a, .num b => jNumEq a b
  | .str a, .str b => a == b
  | .num a, .str s => jNumEq a (strToNum s)
  | .str s, .num b => jNumEq (strToNum s) b
  | _, _ => false

/-- JavaScript loose equality: two objects compare by identity (approximated
structurally), an object against a primitive goes through its primitive
(string) form, otherwise the primitive rules apply. -/
def jsLooseEq (a b : JsVal) : Bool :=
  match a, b with
  | .arr _, .arr _ => jsStrictEq a b
  | .arr _, .obj _ => jsStrictEq a b
  | .obj _, .arr _ => jsStrictEq a b
  | .obj _, .obj _ => jsStrictEq a b
  | .arr _, .builtin _ => jsStrictEq a b
  | .obj _, .builtin _ => jsStrictEq a b
  | .builtin _, .arr _ => jsStrictEq a b
  | .builtin _, .obj _ => jsStrictEq a b
  | .builtin _, .builtin _ => jsStrictEq a b
  | .arr _, .undefined => false
  | .arr _, .null => false
  | .obj _, .undefined => false
  | .obj _, .null => false
  | .builtin _, .undefined => false
  | .builtin _, .null => false
  | .undefined, .arr _ => false
  | .null, .arr _ => false
  | .undefined, .obj _ => false
  | .null, .obj _ => false
  | .undefined, .builtin _ => false
  | .null, .builtin _ => false
  | x, y => loosePrimEq (toPrimNum x) (toPrimNum y)

/-- Whether the second list is a prefix of the first. -/
def listStartsWith : List Char → List Char → Bool
  | _, [] => true
  | [], _ :: _ => false
  | a :: as, b :: bs => a == b && listStartsWith as bs

/-- Whether `sub` occurs as a contiguous run inside the scanned list. -/
def listContainsSub (sub : List Char) : List Char → Bool
  | [] => listStartsWith [] sub
  | c :: rest => listStartsWith (c :: rest) sub || listContainsSub sub rest

/-- The string inclusion test of JavaScript. -/
def jsIncludes (s sub : String) : Bool := listContainsSub sub.toList s.toList

/-- One scan of the JavaScript string split with a non-empty separator: at
each position, a separator occurrence ends the current segment (kept
reversed in `acc`) and the scan restarts after it. The fuel argument is a
step bound that makes the recursion structural (and so kernel-reducible);
every step strictly shortens the scanned list, so any fuel beyond the list
length is enough and the exhaustion clause is never reached from
`jsSplit`. -/
def splitGoF (s0 : Char) (ss : List Char) : Nat → List Char → List Char → List (List Char)
  | 0, acc, _ => [acc.reverse]
  | fuel + 1, acc, l =>
    if listStartsWith l (s0 :: ss) then
      acc.reverse :: splitGoF s0 ss fuel [] (l.drop (ss.length + 1))
    else
      match l with
      | [] => [acc.reverse]
      | c :: rest => splitGoF s0 ss fuel (c :: acc) rest

/-- JavaScript string split over character lists; the empty separator splits
into single characters. -/
def jsSplit : List Char → List Char → List (List Char)
  | [], l => l.map fun c => [c]
  | s0 :: ss, l => splitGoF s0 ss (l.length + 1) [] l

/-- JavaScript string split. -/
def jsStringSplit (sep s : String) : List String :=
  (jsSplit sep.toList s.toList).map List.asString

/-- The canonical array-index reading of a property key: all digits with no
leading zero. -/
def canonicalIndex (key : String) : Option Nat :=
  let l := key.toList
  if l ≠ [] ∧ l.all Char.isDigit ∧ (key = "0" ∨ l.headD '0' ≠ '0') then
    some (digitsToNat l)
  else none

/-- Own-property test: object fields by key, array elements by canonical
index plus the array length property. -/
def jsHasOwn : JsVal → String → Bool
  | .obj fs, key => (fs.lookup key).isSome
  | .arr es, key =>
    key == "length" ||
      (match canonicalIndex key with
       | some i => decide (i < es.length)
       | none => false)
  | _, _ => false

/-- Own-property read (undefined when absent). -/
def jsGetOwn : JsVal → String → JsVal
  | .obj fs, key => (fs.lookup key).getD .undefined
  | .arr es, key =>
    if key = "length" then .num (.fin ⟨(es.length : Int), 1⟩)
    else
      match canonicalIndex key with
      | some i => (es.get? i).getD .undefined
      | none => .undefined
  | _, _ => .undefined

/-- Function-valued properties every plain object inherits from the object
prototype. -/
def protoProps : List String :=
  ["constructor", "hasOwnProperty", "isPrototypeOf", "propertyIsEnumerable",
   "toLocaleString", "toString", "valueOf"]

/-- Methods arrays additionally inherit from the array prototype. -/
def arrayProtoProps : List String :=
  ["push", "pop", "shift", "unshift", "map", "filter", "forEach", "join",
   "slice", "splice", "indexOf", "includes", "concat", "reduce", "find",
   "reverse", "sort", "some", "every"]

/-- JavaScript property read on a value: an own property wins; otherwise an
object or array yields the inherited prototype members (dunder proto, the
object-prototype functions, and for arrays also the array methods), and
anything else yields undefined. Property access on null or undefined, which
throws in JavaScript, is modelled as undefined; the sole call site where it
can occur catches the thrown error and produces the same observable result. -/
def jsGetMember (v : JsVal) (key : String) : JsVal :=
  if jsHasOwn v key then jsGetOwn v key
  else
    match v with
    | .obj _ =>
      if key = "__proto__" then .builtin "ObjectPrototype"
      else if protoProps.contains key then .builtin key
      else .undefined
    | .arr _ =>
      if key = "__proto__" then .builtin "ArrayPrototype"
      else if protoProps.contains key || arrayProtoProps.contains key then .builtin key
      else .undefined
    | _ => .undefined

/-- The segment names the path resolver refuses to traverse. -/
def forbiddenKeys : List String := ["__proto__", "constructor", "prototype"]

/-- The JavaScript typeof-object test (arrays and null included). -/
def typeofIsObject : JsVal → Bool
  | .obj _ => true
  | .arr _ => true
  | .null => true
  | _ => false

/-- Characters admitted by the path-format check of `getValueByPath`. -/
def pathChar (c : Char) : Bool :=
  ('a' ≤ c && c ≤ 'z') || ('A' ≤ c && c ≤ 'Z') || ('0' ≤ c && c ≤ '9') ||
  c = '_' || c = '.'

/-- The path-format check of `getValueByPath`: non-empty and drawn entirely
from letters, digits, underscore and dot. -/
def pathFormatOk (path : String) : Bool :=
  path != "" && path.toList.all pathChar

/-- One reduce step of `getValueByPath`: an empty segment or one of the
three forbidden segment names yields undefined, otherwise the accumulator
must be a truthy object owning the segment, whose value is read. -/
def pathStep (o : JsVal) (key : String) : JsVal :=
  if key = "" || key = "__proto__" || key = "constructor" || key = "prototype" then .undefined
  else if jsTruthy o && typeofIsObject o && jsHasOwn o key then jsGetMember o key
  else .undefined

/-- The path resolver of `src/index.ts`: guard the root and the path format,
split the path on dots and reduce over the segments. -/
def getValueByPath (obj : JsVal) (path : String) : JsVal :=
  if !jsTruthy obj || !typeofIsObject obj || path = "" then .undefined
  else if !pathFormatOk path then .undefined
  else (jsStringSplit "." path).foldl pathStep obj

/-- Length of the leading whitespace run. -/
def wsCount (l : List Char) : Nat := (l.takeWhile jsWs).length

/-- Candidate (group, rest) pairs for one `\s* (.+?) \s* stop` stage of the
ternary regex, in backtracking preference order: the greedy leading
whitespace consumes as much as possible first, then the lazy group grows
from one character; the group may only contain characters the regex dot
matches, and after it the next non-whitespace character must be the stop
character, with the rest continuing after it. -/
def groupCandidates (stop : Char) (l : List Char) : List (List Char × List Char) :=
  ((List.range (wsCount l + 1)).reverse).flatMap fun p =>
    (List.range (l.length - p)).filterMap fun j =>
      let g := (l.drop p).take (j + 1)
      if g.all jsDot then
        match (l.drop (p + j + 1)).dropWhile jsWs with
        | c :: tail => if c = stop then some (g, tail) else none
        | [] => none
      else none

/-- Candidates for the final `\s* (.+?) \s* $` stage of the ternary regex:
greedy leading whitespace, then the lazy group extends until only
whitespace remains. -/
def finalGroup (l : List Char) : Option (List Char) :=
  ((List.range (wsCount l + 1)).reverse).findSome? fun p =>
    let t := l.drop p
    (List.range t.length).findSome? fun j =>
      let g := t.take (j + 1)
      if g.all jsDot && (t.drop (j + 1)).all jsWs then some g else none

/-- The anchored lazy ternary regex of `evaluateExpression`, as a
backtracking matcher: the three capture groups (condition, true branch,
false branch) of the first overall match, trying stage candidates in the
regex engine's preference order with full backtracking across stages. -/
def ternaryMatch (s : String) : Option (String × String × String) :=
  (groupCandidates '?' s.toList).findSome? fun gp =>
    (groupCandidates ':' gp.2).findSome? fun gq =>
      (finalGroup gq.2).map fun g3 => (gp.1.asString, gq.1.asString, g3.asString)

/-- The allowed operators, in the insertion order of the operator table of
`evaluateExpression` (the order `Object.entries` yields). -/
def operatorNames : List String := ["===", "!==", "==", "!=", ">", "<", ">=", "<=", "&&", "||"]

/-- Operator detection: the first operator in the table order that occurs as
a literal substring of the condition. -/
def detectOperator (cond : String) : Option String :=
  operatorNames.find? fun op => jsIncludes cond op

/-- Word characters of the regex word class. -/
def wordChar (c : Char) : Bool :=
  ('a' ≤ c && c ≤ 'z') || ('A' ≤ c && c ≤ 'Z') || ('0' ≤ c && c ≤ '9') || c = '_'

/-- The simple-path test: non-empty text of word characters and dots. -/
def isSimplePath (s : String) : Bool :=
  s != "" && s.toList.all fun c => wordChar c || c = '.'

/-- The quoted-literal test: at least two characters, opening and closing
quote characters (single or double, in any combination), and a middle the
regex dot can match. -/
def isQuoted (s : String) : Bool :=
  match s.toList with
  | [] => false
  | c :: rest =>
    (c = '\'' || c = '"') &&
      (match rest.getLast? with
       | some d => (d = '\'' || d = '"') && rest.dropLast.all jsDot
       | none => false)

/-- Strip the first and last character of a quoted literal. -/
def stripQuotes (s : String) : String := ((s.toList.drop 1).dropLast).asString

/-- The number-literal test: an optional minus sign, digits, and an optional
point followed by digits. -/
def isNumberLit (s : String) : Bool :=
  let l := s.toList
  let l1 := match l with | '-' :: r => r | r => r
  let a := l1.takeWhile Char.isDigit
  let r1 := l1.dropWhile Char.isDigit
  a != ([] : List Char) &&
    (match r1 with
     | [] => true
     | '.' :: r2 => r2 != ([] : List Char) && r2.all Char.isDigit
     | _ => false)

/-- Value of a matching number literal (the number conversion JavaScript
applies to it). -/
def parseNumberLit (s : String) : Frac :=
  let l := s.toList
  let (neg, l1) := match l with | '-' :: r => (true, r) | r => (false, r)
  let a := l1.takeWhile Char.isDigit
  let r1 := l1.dropWhile Char.isDigit
  let b := match r1 with | '.' :: r2 => r2.takeWhile Char.isDigit | _ => []
  let q := fracAdd ⟨(digitsToNat a : Int), 1⟩ ⟨(digitsToNat b : Int), 10 ^ b.length⟩
  if neg then fracNeg q else q

/-- Operand parsing of the condition sides: trim, then in order try a path
reference (resolved against the data), a quoted string literal, a number
literal, the two boolean keywords, and finally the raw trimmed text. -/
def parseOperand (data : JsVal) (part : String) : JsVal :=
  let p := jsTrim part
  if isSimplePath p then getValueByPath data p
  else if isQuoted p then .str (stripQuotes p)
  else if isNumberLit p then .num (.fin (parseNumberLit p))
  else if p = "true" then .bool true
  else if p = "false" then .bool false
  else .str p

/-- The operator table: comparison operators return booleans, the two
logical operators return one of their operands as JavaScript does. -/
def applyOp (op : String) (a b : JsVal) : JsVal :=
  if op = "===" then .bool (jsStrictEq a b)
  else if op = "!==" then .bool (!jsStrictEq a b)
  else if op = "==" then .bool (jsLooseEq a b)
  else if op = "!=" then .bool (!jsLooseEq a b)
  else if op = ">" then .bool ((jsLessThan b a).getD false)
  else if op = "<" then .bool ((jsLessThan a b).getD false)
  else if op = ">=" then .bool (match jsLessThan a b with | none => false | some t => !t)
  else if op = "<=" then .bool (match jsLessThan b a with | none => false | some t => !t)
  else if op = "&&" then (if jsTruthy a then b else a)
  else if op = "||" then (if jsTruthy a then a else b)
  else .undefined

/-- Branch evaluation: a quoted literal yields its unquoted text, anything
else is trimmed and resolved as a path against the data. -/
def evalBranch (branch : String) (data : JsVal) : JsVal :=
  if isQuoted branch then .str (stripQuotes branch)
  else getValueByPath data (jsTrim branch)

/-- The body of the try block of `evaluateExpression`: on a ternary match,
find the first operator occurring in the condition, split the condition on
every occurrence of it, parse the first two pieces as operands and apply
the operator (no operator leaves the condition false), then evaluate the
selected branch; otherwise resolve the whole trimmed expression as a path.
The error monad records where a JavaScript exception would propagate; no
operation in the body throws. -/
def evaluateExpressionBody (expression : String) (data : JsVal) : Except String JsVal :=
  match ternaryMatch expression with
  | some (cond, trueExpr, falseExpr) =>
    let condVal : JsVal :=
      match detectOperator cond with
      | some op =>
        let parts := (jsStringSplit op cond).map (parseOperand data)
        applyOp op (parts.getD 0 .undefined) (parts.getD 1 .undefined)
      | none => .bool false
    if jsTruthy condVal then Except.ok (evalBranch trueExpr data)
    else Except.ok (evalBranch falseExpr data)
  | none => Except.ok (getValueByPath data (jsTrim expression))

/-- The expression evaluator of `src/index.ts`: the try body with the
catch-all handler that turns any thrown error into the empty string. -/
def evaluateExpression (expression : String) (data : JsVal) : JsVal :=
  match evaluateExpressionBody expression data with
  | .ok v => v
  | .error _ => .str ""

/-- The per-match callback of the template replacement: a simple path is
resolved directly (undefined rendering as empty), anything else goes
through the expression evaluator with a falsy result lowered to the empty
string, and the result is stringified. -/
def templateCallback (data : JsVal) (expression : String) : String :=
  if isSimplePath expression then
    match getValueByPath data expression with
    | .undefined => ""
    | v => jsToString v
  else
    let r := evaluateExpression expression data
    jsToString (if jsTruthy r then r else .str "")

/-- Capture of one placeholder body: the run of characters before the next
closing brace, which must be non-empty and actually closed. -/
def scanBody (l : List Char) : Option (List Char × List Char) :=
  let b := l.takeWhile fun c => c ≠ Char.ofNat 125
  match l.drop b.length with
  | [] => none
  | _ :: t => if b = ([] : List Char) then none else some (b, t)

/-- The global-regex replacement scan of `replaceTemplateVars`: find each
placeholder opener, capture the body up to the closing brace, substitute
the callback result and continue scanning after the match in the original
text (substituted text is never re-scanned); an opener with no closed
non-empty body is kept and scanning resumes right after its first
character. The fuel argument makes the recursion structural; every step
consumes at least one character, so any fuel beyond the list length is
enough and the exhaustion clause is never reached from
`replaceTemplateVars`. -/
def rtvGoF (data : JsVal) : Nat → List Char → List Char
  | 0, l => l
  | fuel + 1, l =>
    match l with
    | [] => []
    | c :: rest =>
      if c = '$' then
        match rest with
        | d :: rest2 =>
          if d = Char.ofNat 123 then
            match scanBody rest2 with
            | some (b, t) => (templateCallback data b.asString).toList ++ rtvGoF data fuel t
            | none => c :: rtvGoF data fuel rest
          else c :: rtvGoF data fuel rest
        | [] => [c]
      else c :: rtvGoF data fuel rest

/-- The template renderer of `src/index.ts`. -/
def replaceTemplateVars (template : String) (data : JsVal) : String :=
  (rtvGoF data (template.toList.length + 1) template.toList).asString

/-- The mapping part of a stored rule: required title and body templates and
four optional templates. -/
structure BarkMapping where
  title : String
  body : String
  group : Option String
  icon : Option String
  url : Option String
  sound : Option String
deriving DecidableEq

/-- A stored webhook rule. -/
structure WebhookRule where
  id : String
  name : String
  mapping : BarkMapping
  barkUrl : String
deriving DecidableEq

/-- An optional field of the notification parameters: the conditional
expression of `sendToBark` renders the template only when the field is
truthy (present and non-empty), and yields undefined otherwise. -/
def optField (data : JsVal) (tmpl : Option String) : Option String :=
  match tmpl with
  | some s => if s != "" then some (replaceTemplateVars s data) else none
  | none => none

/-- List form of one possibly-absent parameter entry (deleted keys simply do
not appear). -/
def optEntry (k : String) (v : Option String) : List (String × String) :=
  match v with
  | some s => [(k, s)]
  | none => []

/-- The notification parameter set `sendToBark` builds before the outbound
call: title and body always rendered, the four optional fields rendered
only when truthy, undefined entries deleted, in the insertion order of the
parameter object. -/
def barkParams (rule : WebhookRule) (data : JsVal) : List (String × String) :=
  ("title", replaceTemplateVars rule.mapping.title data) ::
  ("body", replaceTemplateVars rule.mapping.body data) ::
  (optEntry "group" (optField data rule.mapping.group) ++
   optEntry "icon" (optField data rule.mapping.icon) ++
   optEntry "url" (optField data rule.mapping.url) ++
   optEntry "sound" (optField data rule.mapping.sound))

/-- The key-value rule store, as the sequence of stored entries. -/
abbrev Store := List (String × JsVal)

/-- The put operation of the store: replace the value under an existing key
or append a new entry. -/
def putStore (store : Store) (key : String) (v : JsVal) : Store :=
  if (store.lookup key).isSome then
    store.map fun kv => if kv.1 = key then (key, v) else kv
  else store ++ [(key, v)]

/-- The create-or-update rules route: the submitted JSON body is accepted
exactly when its id, name, mapping and target-endpoint members are all
truthy, and then saved under the prefixed id key; otherwise a client error
is returned and the store is left untouched. (A thrown member access on a
null or undefined body lands in the same catch and produces the same
observable client-error outcome.) -/
def postRules (body : JsVal) (store : Store) : Nat × Store :=
  if jsTruthy (jsGetMember body "id") && jsTruthy (jsGetMember body "name") &&
      jsTruthy (jsGetMember body "mapping") && jsTruthy (jsGetMember body "barkUrl") then
    (200, putStore store ("rule:" ++ jsToString (jsGetMember body "id")) body)
  else (400, store)

/-- Spec-side definition for claim C6, following the specification's words:
the right operand as the entire remainder of the condition text after the
first occurrence of the operator. Used only for comparison against the
split the code performs. -/
def remainderAfterFirst (cond op : String) : Option String :=
  let l := cond.toList
  ((List.range (l.length + 1)).find? fun i => listStartsWith (l.drop i) op.toList).map
    fun i => (l.drop (i + op.toList.length)).asString

/-- One own-property access step: from an object to the value of one of its
own fields, or from an array to one of its elements or its length. Values
inherited from a prototype are exactly the ones no such step reaches. -/
inductive OwnStep : JsVal → JsVal → Prop where
  | objField (fs : List (String × JsVal)) (k : String) (v : JsVal) :
      fs.lookup k = some v → OwnStep (.obj fs) v
  | arrElem (es : List JsVal) (i : Nat) (v : JsVal) :
      es.get? i = some v → OwnStep (.arr es) v
  | arrLength (es : List JsVal) : OwnStep (.arr es) (.num (.fin ⟨(es.length : Int), 1⟩))

/-- Reachability from a root value through own-property accesses only. -/
def OwnReachable : JsVal → JsVal → Prop := Relation.ReflTransGen OwnStep

/-! Helper lemmas about the path resolver. -/

theorem pathStep_undef (key : String) : pathStep .undefined key = .undefined := by
  unfold pathStep
  split
  · rfl
  · simp [jsTruthy]

theorem foldl_pathStep_undef (keys : List String) :
    keys.foldl pathStep .undefined = .undefined := by
  induction keys with
  | nil => rfl
  | cons k ks ih => simp only [List.foldl, pathStep_undef, ih]

theorem pathStep_bad {key : String} (o : JsVal)
    (hk : key = "" ∨ key ∈ forbiddenKeys) : pathStep o key = .undefined := by
  unfold pathStep
  have hcond :
      (key = "" || key = "__proto__" || key = "constructor" || key = "prototype") = true := by
    simp only [forbiddenKeys, List.mem_cons, List.not_mem_nil, or_false] at hk
    rcases hk with h | h | h | h <;> simp [h]
  rw [if_pos hcond]

theorem foldl_pathStep_bad (keys : List String) (o : JsVal)
    (h : ∃ k ∈ keys, k = "" ∨ k ∈ forbiddenKeys) :
    keys.foldl pathStep o = .undefined := by
  induction keys generalizing o with
  | nil => simp at h
  | cons k ks ih =>
    rcases h with ⟨k0, hmem, hbad⟩
    rcases List.mem_cons.mp hmem with rfl | hmem2
    · simp only [List.foldl, pathStep_bad o hbad, foldl_pathStep_undef]
    · exact List.foldl_cons .. ▸ ih (pathStep o k) ⟨k0, hmem2, hbad⟩

theorem ownStep_of_hasOwn {o : JsVal} {key : String} (h : jsHasOwn o key = true) :
    OwnStep o (jsGetMember o key) := by
  unfold jsGetMember
  rw [if_pos h]
  cases o with
  | obj fs =>
    simp only [jsHasOwn, Option.isSome_iff_exists] at h
    obtain ⟨v, hv⟩ := h
    simpa [jsGetOwn, hv] using OwnStep.objField fs key v hv
  | arr es =>
    by_cases hlen : key = "length"
    · subst hlen
      simpa [jsGetOwn] using OwnStep.arrLength es
    · simp only [jsHasOwn, Bool.or_eq_true, beq_iff_eq, hlen, false_or] at h
      rcases hidx : canonicalIndex key with _ | i
      · rw [hidx] at h; simp at h
      · rw [hidx] at h
        simp only [decide_eq_true_eq] at h
        have hv : es.get? i = some (es.get ⟨i, h⟩) := List.get?_eq_get h
        have hval : jsGetOwn (.arr es) key = es.get ⟨i, h⟩ := by
          simp [jsGetOwn, hlen, hidx, List.getElem?_eq_getElem h]
        rw [hval]
        exact OwnStep.arrElem es i _ hv
  | undefined => simp [jsHasOwn] at h
  | null => simp [jsHasOwn] at h
  | bool b => simp [jsHasOwn] at h
  | num n => simp [jsHasOwn] at h
  | str s => simp [jsHasOwn] at h
  | builtin n => simp [jsHasOwn] at h

theorem pathStep_own (o : JsVal) (key : String) :
    pathStep o key = .undefined ∨ OwnStep o (pathStep o key) := by
  unfold pathStep
  split
  · exact Or.inl rfl
  · split
    · next hcond =>
      simp only [Bool.and_eq_true] at hcond
      exact Or.inr (ownStep_of_hasOwn hcond.2)
    · exact Or.inl rfl

theorem foldl_pathStep_own (root : JsVal) (keys : List String) :
    ∀ acc, (acc = .undefined ∨ OwnReachable root acc) →
      (keys.foldl pathStep acc = .undefined ∨ OwnReachable root (keys.foldl pathStep acc)) := by
  induction keys with
  | nil => intro acc h; simpa using h
  | cons k ks ih =>
    intro acc h
    simp only [List.foldl]
    apply ih
    rcases h with rfl | h
    · exact Or.inl (pathStep_undef k)
    · rcases pathStep_own acc k with h2 | h2
      · exact Or.inl h2
      · exact Or.inr (Relation.ReflTransGen.tail h h2)

/-! Claim C4. -/

/-- C4: for every JSON object root and every path, the path resolver never
returns a value that is reachable only through the prototype chain: every
non-undefined result is reachable from the root by own-property accesses
alone, and in particular resolving `constructor` on an empty object is
undefined. -/
theorem c4_resolver_returns_own_properties_only :
    (∀ (root : JsVal) (path : String),
      getValueByPath root path = .undefined ∨ OwnReachable root (getValueByPath root path)) ∧
    getValueByPath (.obj []) "constructor" = .undefined := by
  refine ⟨fun root path => ?_, rfl⟩
  unfold getValueByPath
  split
  · exact Or.inl rfl
  · split
    · exact Or.inl rfl
    · exact foldl_pathStep_own root _ root (Or.inr Relation.ReflTransGen.refl)

/-! Claim C5. -/

/-- C5: for every root value and every path string that is malformed (a
character outside the allowed class) or contains an empty segment or a
segment equal to one of the three forbidden names, the path resolver yields
undefined for the whole resolution; being a total function, it never
throws. -/
theorem c5_invalid_path_yields_undefined (root : JsVal) (path : String)
    (h : pathFormatOk path = false ∨
      ∃ seg ∈ jsStringSplit "." path, seg = "" ∨ seg ∈ forbiddenKeys) :
    getValueByPath root path = .undefined := by
  unfold getValueByPath
  split
  · rfl
  · split
    · rfl
    · next hfmt =>
      rcases h with h | h
      · rw [h] at hfmt; simp at hfmt
      · exact foldl_pathStep_bad _ root h

/-- C5 witness: a well-formed root with a forbidden middle segment resolves
to undefined. -/
theorem c5_witness :
    getValueByPath (.obj [("a", .num (.fin 1))]) "a.__proto__" = .undefined :=
  c5_invalid_path_yields_undefined _ _
    (Or.inr ⟨"__proto__", by decide, Or.inr (by decide)⟩)

/-! Claim C10. -/

/-- C10: if the root passed to the path resolver is not a truthy object
(it is null, undefined, a number, a string, or a boolean), the resolver
returns undefined for every path string, before any traversal. -/
theorem c10_nonobject_root_yields_undefined (root : JsVal) (path : String)
    (h : jsTruthy root = false ∨ typeofIsObject root = false) :
    getValueByPath root path = .undefined := by
  unfold getValueByPath
  split
  · rfl
  · next hc =>
    exfalso
    rcases h with h | h <;> simp [h] at hc

/-- C10 witness: a number root resolves any path to undefined. -/
theorem c10_witness : getValueByPath (.num (.fin 5)) "a.b" = .undefined :=
  c10_nonobject_root_yields_undefined _ _ (Or.inr rfl)

/-! Claim C7. -/

/-- C7: for every expression matching the ternary shape whose condition
contains none of the ten operators of the fixed operator table, the
condition evaluates to false and the evaluator returns the value of the
false branch. -/
theorem c7_no_operator_takes_false_branch (expression : String) (data : JsVal)
    (cond trueExpr falseExpr : String)
    (hmatch : ternaryMatch expression = some (cond, trueExpr, falseExpr))
    (hop : ∀ op ∈ operatorNames, jsIncludes cond op = false) :
    evaluateExpression expression data = evalBranch falseExpr data := by
  have hdet : detectOperator cond = none := by
    unfold detectOperator
    rw [List.find?_eq_none]
    intro op hmem
    simp [hop op hmem]
  simp [evaluateExpression, evaluateExpressionBody, hmatch, hdet, jsTruthy]

/-- C7 witness: a ternary whose condition is a bare path with no operator
yields the false branch. -/
theorem c7_witness :
    ternaryMatch "x ? 'a' : 'b'" = some ("x", "'a'", "'b'") ∧
    evaluateExpression "x ? 'a' : 'b'" (.obj []) = evalBranch "'b'" (.obj []) :=
  ⟨rfl, c7_no_operator_takes_false_branch _ _ _ _ _ rfl (by decide)⟩

/-! Claim C8. -/

/-- C8: for every expression string and every data value, the try body of
the evaluator completes without reaching an error state, and the evaluator
returns exactly that value — nothing ever propagates to the caller, and by
the definition of the catch handler an error would have become the empty
string. -/
theorem c8_evaluator_never_raises (expression : String) (data : JsVal) :
    ∃ v, evaluateExpressionBody expression data = Except.ok v ∧
      evaluateExpression expression data = v := by
  obtain ⟨v, hv⟩ : ∃ v, evaluateExpressionBody expression data = Except.ok v := by
    unfold evaluateExpressionBody
    rcases ternaryMatch expression with _ | ⟨cond, tE, fE⟩
    · exact ⟨_, rfl⟩
    · dsimp only
      split
      · exact ⟨_, rfl⟩
      · exact ⟨_, rfl⟩
  exact ⟨v, hv, by simp [evaluateExpression, hv]⟩

/-! Claim C2. -/

/-- C2 (the code, evaluated at the failing input): the operator table order
tries the greater-than token before greater-or-equal, so the condition
containing greater-or-equal is detected as a greater-than comparison and
split on the single character, leaving the equals sign glued to the right
operand; the whole ternary then takes the true branch, while the comparison
the claim describes (the quoted literal against the resolved path under
greater-or-equal) is false and would have taken the false branch. -/
theorem c2_scan_order_failing_input :
    detectOperator "a >= 'b'" = some ">" ∧
    jsStringSplit ">" "a >= 'b'" = ["a ", "= 'b'"] ∧
    evaluateExpression "a >= 'b' ? 'x' : 'y'" (.obj [("a", .str "a")]) = .str "x" ∧
    applyOp ">=" (.str "a") (.str "b") = .bool false :=
  ⟨rfl, rfl, rfl, rfl⟩

/-! Claim C9. -/

/-- C9: template rendering is single-pass and non-recursive — text
substituted for a placeholder is never re-scanned, so rendering a
placeholder whose value is itself placeholder text yields that text
literally, even though rendering it directly would substitute further. -/
theorem c9_rendering_single_pass :
    replaceTemplateVars "${a}" (.obj [("a", .str "${b}"), ("b", .str "x")]) = "${b}" ∧
    replaceTemplateVars "${b}" (.obj [("a", .str "${b}"), ("b", .str "x")]) = "x" :=
  ⟨rfl, rfl⟩

/-! Helper lemmas about the split scan, for claim C6. -/

theorem listStartsWith_append_self (p r : List Char) :
    listStartsWith (p ++ r) p = true := by
  induction p with
  | nil => rw [List.nil_append]; cases r <;> rfl
  | cons c cs ih => simp [listStartsWith, ih]

theorem splitGoF_append (s0 : Char) (ss : List Char) :
    ∀ (pre : List Char) (rest acc : List Char) (fuel : Nat), pre.length < fuel →
      (∀ i < pre.length,
        listStartsWith ((pre ++ (s0 :: ss) ++ rest).drop i) (s0 :: ss) = false) →
      splitGoF s0 ss fuel acc (pre ++ (s0 :: ss) ++ rest) =
        (acc.reverse ++ pre) :: splitGoF s0 ss (fuel - (pre.length + 1)) [] rest := by
  intro pre
  induction pre with
  | nil =>
    intro rest acc fuel hfuel _
    cases fuel with
    | zero => omega
    | succ f =>
      simp only [List.nil_append, splitGoF, listStartsWith_append_self, if_true]
      rw [show ss.length + 1 = (s0 :: ss).length from rfl, List.drop_left]
      simp
  | cons c pre' ih =>
    intro rest acc fuel hfuel hpre
    cases fuel with
    | zero => omega
    | succ f =>
      have h0 := hpre 0 (by simp)
      simp only [List.drop_zero, List.cons_append] at h0
      have hstep :
          splitGoF s0 ss (f + 1) acc ((c :: pre') ++ (s0 :: ss) ++ rest) =
            splitGoF s0 ss f (c :: acc) (pre' ++ (s0 :: ss) ++ rest) := by
        simp only [List.cons_append, splitGoF]
        rw [if_neg (by simpa using h0)]
      rw [hstep]
      have ihr := ih rest (c :: acc) f (by simp only [List.length_cons] at hfuel; omega)
        (fun i hi => by
          have h2 := hpre (i + 1) (by simp only [List.length_cons]; omega)
          simpa using h2)
      rw [ihr]
      have hfm : f - (pre'.length + 1) = f + 1 - ((c :: pre').length + 1) := by
        simp only [List.length_cons]
        omega
      rw [hfm]
      simp

/-! Claim C6. -/

/-- C6 counterexample: for a condition in which the detected operator occurs
twice, the right operand piece the code uses (the second fragment of the
split on every occurrence) differs from the entire remainder after the
first occurrence that the claim describes, and the full ternary evaluates
accordingly (the remainder reading would make the condition compare equal
and take the true branch; the code takes the false branch). -/
theorem c6_counterexample :
    (jsStringSplit "==" "a == b == b").get? 1 = some " b " ∧
    remainderAfterFirst "a == b == b" "==" = some " b == b" ∧
    (some " b " : Option String) ≠ some " b == b" ∧
    evaluateExpression "a == b == b ? 'T' : 'F'" (.obj [("a", .str "b == b")]) = .str "F" :=
  ⟨rfl, rfl, by decide, rfl⟩

/-- C6 amended: the evaluator splits the condition on every occurrence of
the detected operator and uses only the first two fragments as operands,
so when the operator occurs more than once the right operand is the text
between the first and second occurrences, not the entire remainder: for a
condition of the shape pre ++ op ++ mid ++ op ++ post with no operator
occurrence starting inside pre or inside mid, the first two fragments are
exactly pre and mid. -/
theorem c6_amended_right_operand_between_occurrences
    (s0 : Char) (ss pre mid post : List Char)
    (hpre : ∀ i < pre.length,
      listStartsWith ((pre ++ (s0 :: ss) ++ (mid ++ (s0 :: ss) ++ post)).drop i)
        (s0 :: ss) = false)
    (hmid : ∀ i < mid.length,
      listStartsWith ((mid ++ (s0 :: ss) ++ post).drop i) (s0 :: ss) = false) :
    (jsSplit (s0 :: ss) (pre ++ (s0 :: ss) ++ (mid ++ (s0 :: ss) ++ post))).get? 0 =
        some pre ∧
    (jsSplit (s0 :: ss) (pre ++ (s0 :: ss) ++ (mid ++ (s0 :: ss) ++ post))).get? 1 =
        some mid := by
  have hlen : pre.length <
      (pre ++ (s0 :: ss) ++ (mid ++ (s0 :: ss) ++ post)).length + 1 := by
    simp [List.length_append]
    omega
  have h1 := splitGoF_append s0 ss pre (mid ++ (s0 :: ss) ++ post) []
    ((pre ++ (s0 :: ss) ++ (mid ++ (s0 :: ss) ++ post)).length + 1) hlen hpre
  have hlen2 : mid.length <
      (pre ++ (s0 :: ss) ++ (mid ++ (s0 :: ss) ++ post)).length + 1 - (pre.length + 1) := by
    simp [List.length_append]
    omega
  have h2 := splitGoF_append s0 ss mid post []
    ((pre ++ (s0 :: ss) ++ (mid ++ (s0 :: ss) ++ post)).length + 1 - (pre.length + 1))
    hlen2 hmid
  simp only [jsSplit]
  rw [h1, h2]
  simp

/-- C6 witness: the amended statement applied to the concrete condition with
two operator occurrences. -/
theorem c6_witness :
    (jsSplit "==".toList "a == b == b".toList).get? 0 = some "a ".toList ∧
    (jsSplit "==".toList "a == b == b".toList).get? 1 = some " b ".toList :=
  c6_amended_right_operand_between_occurrences '=' ['='] "a ".toList " b ".toList
    " b".toList (by decide) (by decide)

/-! Claim C1. -/

/-- C1 counterexample: a submitted rule whose mapping object is present but
lacks the title template passes the validation of the create-or-update
route, is reported as saved, and is persisted into the store — the claim
would have required a client error with no store mutation. -/
theorem c1_counterexample :
    jsGetMember
      (jsGetMember
        (.obj [("id", .str "r1"), ("name", .str "n"),
               ("mapping", .obj [("body", .str "B")]), ("barkUrl", .str "u")])
        "mapping") "title" = .undefined ∧
    postRules
      (.obj [("id", .str "r1"), ("name", .str "n"),
             ("mapping", .obj [("body", .str "B")]), ("barkUrl", .str "u")]) [] =
      (200,
       [("rule:r1",
         .obj [("id", .str "r1"), ("name", .str "n"),
               ("mapping", .obj [("body", .str "B")]), ("barkUrl", .str "u")])]) :=
  ⟨rfl, rfl⟩

/-- C1 amended: the create-or-update route rejects a submission with a
client error and leaves the store untouched exactly when the id, the name,
the mapping object as a whole, or the target endpoint is missing or falsy
— both directions: any falsy member is rejected without persisting, and a
submission with all four members truthy is accepted and persisted under the
prefixed id key, whatever its mapping contains; the title and body inside
the mapping are not validated. -/
theorem c1_amended_validation (body : JsVal) (store : Store) :
    ((jsTruthy (jsGetMember body "id") = false ∨
      jsTruthy (jsGetMember body "name") = false ∨
      jsTruthy (jsGetMember body "mapping") = false ∨
      jsTruthy (jsGetMember body "barkUrl") = false) →
      postRules body store = (400, store)) ∧
    (jsTruthy (jsGetMember body "id") = true →
      jsTruthy (jsGetMember body "name") = true →
      jsTruthy (jsGetMember body "mapping") = true →
      jsTruthy (jsGetMember body "barkUrl") = true →
      postRules body store =
        (200, putStore store ("rule:" ++ jsToString (jsGetMember body "id")) body)) := by
  constructor
  · intro h
    unfold postRules
    rcases h with h | h | h | h <;> simp [h]
  · intro h1 h2 h3 h4
    unfold postRules
    simp [h1, h2, h3, h4]

/-- C1 witness: a body with no id is rejected and the empty store stays
empty, while a body with all four members truthy (its mapping lacking a
title) is accepted and persisted. -/
theorem c1_witness :
    postRules (.obj [("name", .str "n")]) [] = (400, []) ∧
    postRules
      (.obj [("id", .str "r1"), ("name", .str "n"),
             ("mapping", .obj [("body", .str "B")]), ("barkUrl", .str "u")]) [] =
      (200,
       [("rule:r1",
         .obj [("id", .str "r1"), ("name", .str "n"),
               ("mapping", .obj [("body", .str "B")]), ("barkUrl", .str "u")])]) :=
  ⟨(c1_amended_validation (.obj [("name", .str "n")]) []).1 (Or.inl rfl),
   (c1_amended_validation
     (.obj [("id", .str "r1"), ("name", .str "n"),
            ("mapping", .obj [("body", .str "B")]), ("barkUrl", .str "u")]) []).2
     rfl rfl rfl rfl⟩

/-! Claim C3. -/

/-- C3 counterexample: a rule that defines the group field as the empty
template string produces no group key at all, although the claim requires
the key whenever the field is defined (with the rendering of the empty
template, which is the empty string, as its value). -/
theorem c3_counterexample :
    (⟨"r", "n", ⟨"T", "B", some "", none, none, none⟩, "u"⟩ : WebhookRule).mapping.group =
      some "" ∧
    (barkParams ⟨"r", "n", ⟨"T", "B", some "", none, none, none⟩, "u"⟩
      (.obj [])).lookup "group" = none :=
  ⟨rfl, rfl⟩

/-- C3 amended: the rule mapper's output contains the key group
(respectively icon, url, sound) if and only if the rule's mapping defines
that field with a non-empty template string; when present, its value is the
template renderer applied to that field's template against the payload, and
it is kept even when that rendering is the empty string; title and body are
always present and rendered. -/
theorem c3_amended_optional_fields (rule : WebhookRule) (data : JsVal) :
    (barkParams rule data).lookup "title" =
      some (replaceTemplateVars rule.mapping.title data) ∧
    (barkParams rule data).lookup "body" =
      some (replaceTemplateVars rule.mapping.body data) ∧
    (barkParams rule data).lookup "group" =
      (rule.mapping.group.bind fun s =>
        if s = "" then none else some (replaceTemplateVars s data)) ∧
    (barkParams rule data).lookup "icon" =
      (rule.mapping.icon.bind fun s =>
        if s = "" then none else some (replaceTemplateVars s data)) ∧
    (barkParams rule data).lookup "url" =
      (rule.mapping.url.bind fun s =>
        if s = "" then none else some (replaceTemplateVars s data)) ∧
    (barkParams rule data).lookup "sound" =
      (rule.mapping.sound.bind fun s =>
        if s = "" then none else some (replaceTemplateVars s data)) := by
  have hskip : ∀ (k' k : String) (v : String) (t : List (String × String)),
      (k' == k) = false → List.lookup k' ((k, v) :: t) = List.lookup k' t := by
    intro k' k v t h
    simp [List.lookup, h]
  have hoskip : ∀ (k' k : String) (v : Option String) (t : List (String × String)),
      (k' == k) = false → List.lookup k' (optEntry k v ++ t) = List.lookup k' t := by
    intro k' k v t h
    cases v <;> simp [optEntry, List.lookup, h]
  have hoself : ∀ (k : String) (v : Option String) (t : List (String × String)),
      List.lookup k (optEntry k v ++ t) =
        match v with
        | some s => some s
        | none => List.lookup k t := by
    intro k v t
    cases v <;> simp [optEntry, List.lookup]
  have hsingle : ∀ (k' k : String) (v : Option String), (k' == k) = false →
      List.lookup k' (optEntry k v) = none := by
    intro k' k v h
    cases v <;> simp [optEntry, List.lookup, h]
  have hfield : ∀ (o : Option String),
      (match optField data o with
        | some s => some s
        | none => (none : Option String)) =
        o.bind fun s => if s = "" then none else some (replaceTemplateVars s data) := by
    intro o
    cases o with
    | none => rfl
    | some s =>
      by_cases hs : s = "" <;> simp [optField, hs]
  refine ⟨by simp [barkParams, List.lookup], by simp [barkParams, List.lookup], ?_, ?_, ?_, ?_⟩
  · show List.lookup "group" (barkParams rule data) = _
    unfold barkParams
    simp only [List.append_assoc]
    rw [hskip "group" "title" _ _ (by decide), hskip "group" "body" _ _ (by decide),
      hoself "group", hoskip "group" "icon" _ _ (by decide),
      hoskip "group" "url" _ _ (by decide), hsingle "group" "sound" _ (by decide)]
    exact hfield rule.mapping.group
  · show List.lookup "icon" (barkParams rule data) = _
    unfold barkParams
    simp only [List.append_assoc]
    rw [hskip "icon" "title" _ _ (by decide), hskip "icon" "body" _ _ (by decide),
      hoskip "icon" "group" _ _ (by decide), hoself "icon",
      hoskip "icon" "url" _ _ (by decide), hsingle "icon" "sound" _ (by decide)]
    exact hfield rule.mapping.icon
  · show List.lookup "url" (barkParams rule data) = _
    unfold barkParams
    simp only [List.append_assoc]
    rw [hskip "url" "title" _ _ (by decide), hskip "url" "body" _ _ (by decide),
      hoskip "url" "group" _ _ (by decide), hoskip "url" "icon" _ _ (by decide),
      hoself "url", hsingle "url" "sound" _ (by decide)]
    exact hfield rule.mapping.url
  · show List.lookup "sound" (barkParams rule data) = _
    unfold barkParams
    simp only [List.append_assoc]
    rw [hskip "sound" "title" _ _ (by decide), hskip "sound" "body" _ _ (by decide),
      hoskip "sound" "group" _ _ (by decide), hoskip "sound" "icon" _ _ (by decide),
      hoskip "sound" "url" _ _ (by decide)]
    have hlast := hoself "sound" (optField data rule.mapping.sound) []
    rw [List.append_nil] at hlast
    rw [hlast]
    exact hfield rule.mapping.sound

end BarkProxy
